import Mathlib

/-!
Shallow embedding of the Blokus-style rule engine (`src/block.rs`,
`src/board.rs`, `src/strategy.rs`): piece representation and geometric
transforms, board legality checks, placement mutation, and the
brute-force placement search iterator.  Machine `usize` values are
modelled as `Nat`; the cell type `u8` is modelled as `Nat` with
`FREE_CELL = 0`.
-/

namespace Blockus

/-- Type `CellType` from `board.rs` (`u8`); player identifiers are small positive
values, `FREE_CELL = 0` marks an unowned cell. -/
abbrev CellType := Nat

/-- Constant `FREE_CELL` from `board.rs`. -/
def FREE_CELL : CellType := 0

/-- Structure `Block` from `block.rs`: a `DMatrix<bool>`.  The matrix is modelled by its
dimensions together with its rows; well-formedness (`Block.WF`) states that
the row list matches the dimensions, which `DMatrix` guarantees by
construction. -/
structure Block where
  nrows : Nat
  ncols : Nat
  data : List (List Bool)
  deriving Repr, DecidableEq

/-- Shape invariant of a `DMatrix<bool>`: the stored rows agree with the
stated dimensions. -/
def Block.WF (b : Block) : Prop :=
  b.data.length = b.nrows ∧ ∀ row ∈ b.data, row.length = b.ncols

instance (b : Block) : Decidable b.WF := by
  unfold Block.WF; infer_instance

/-- Embeds `Block::cell_at_row_col`.  The Rust indexing `self.data[(row, col)]`
is only invoked in-bounds by every caller in the source; out-of-range
access is modelled by the default `false`. -/
def Block.cell_at_row_col (b : Block) (row col : Nat) : Bool :=
  (b.data.getD row []).getD col false

/-- Embeds `Block::cells`: the number of marked cells. -/
def Block.cells (b : Block) : Nat :=
  (b.data.map (fun row => row.count true)).sum

/-- Embeds `Block::transpose` (via `DMatrix::transpose`): entry `(i, j)` of the
result is entry `(j, i)` of the argument, with dimensions swapped. -/
def Block.transpose (b : Block) : Block :=
  { nrows := b.ncols
    ncols := b.nrows
    data := (List.range b.ncols).map fun r =>
      (List.range b.nrows).map fun c => b.cell_at_row_col c r }

/-- Embeds `Block::rotate_90`: transpose, then reverse each row (a quarter turn
clockwise). -/
def Block.rotate_90 (b : Block) : Block :=
  let t := b.transpose
  { nrows := t.nrows
    ncols := t.ncols
    data := t.data.map List.reverse }

/-- Error type `BlockError` from `block.rs`. -/
inductive BlockError where
  | DimensionMismatch
  | EmptyBlock
  deriving Repr, DecidableEq

/-- Embeds `Block::from_str`, modelled from the point where the input has been
split into lines (`s.lines()`): each line is turned into a row of booleans
(`'#'` marks a cell), rows must all have the same length, a maximal length
of zero is rejected as `EmptyBlock`. -/
def Block.fromLines (lines : List String) : Except BlockError Block :=
  let rows : List (List Bool) :=
    lines.map fun line => line.toList.map fun c => c == '#'
  let min_columns := ((rows.map List.length).min?).getD 0
  let max_columns := ((rows.map List.length).max?).getD 0
  if min_columns ≠ max_columns then
    .error .DimensionMismatch
  else if max_columns = 0 then
    .error .EmptyBlock
  else
    .ok { nrows := rows.length, ncols := max_columns, data := rows }

/-- The loop domain of the source's per-cell passes: some marked cell exists
within the stated dimensions.  For blocks built by `Block.fromLines` of a
catalog shape this is the "at least one `true` cell" piece invariant. -/
def Block.hasCell (b : Block) : Bool :=
  (List.range b.nrows).any fun r =>
    (List.range b.ncols).any fun c => b.cell_at_row_col r c

/-- Structure `Board` from `board.rs`: a `DMatrix<CellType>`, modelled like
`Block` by its dimensions plus row list (`Board.WF` ties them together). -/
structure Board where
  nrows : Nat
  ncols : Nat
  data : List (List CellType)
  deriving Repr, DecidableEq

/-- Shape invariant of the board's `DMatrix<CellType>`. -/
def Board.WF (bd : Board) : Prop :=
  bd.data.length = bd.nrows ∧ ∀ row ∈ bd.data, row.length = bd.ncols

instance (bd : Board) : Decidable bd.WF := by
  unfold Board.WF; infer_instance

/-- Embeds `Board::new`: all cells `FREE_CELL`. -/
def Board.new (nrows ncols : Nat) : Board :=
  { nrows := nrows, ncols := ncols
    data := List.replicate nrows (List.replicate ncols FREE_CELL) }

/-- Embeds `Board::free_at_row_col`: in-range cells compare against
`FREE_CELL`, out-of-range coordinates report `false` (not free). -/
def Board.free_at_row_col (bd : Board) (row col : Nat) : Bool :=
  if row < bd.nrows ∧ col < bd.ncols then
    (bd.data.getD row []).getD col FREE_CELL == FREE_CELL
  else
    false

/-- Embeds `Board::at_row_col`: out-of-range coordinates report
`FREE_CELL`. -/
def Board.at_row_col (bd : Board) (row col : Nat) : CellType :=
  if row < bd.nrows ∧ col < bd.ncols then
    (bd.data.getD row []).getD col FREE_CELL
  else
    FREE_CELL

/-- First pass of `Board::can_place` (lines 130-146): the loop sets
`overlapping = Some(true)` exactly when some marked block cell maps to a
board cell that is not free. -/
def Board.overlapViolation (bd : Board) (row col : Nat) (block : Block) : Bool :=
  (List.range block.nrows).any fun block_row =>
    (List.range block.ncols).any fun block_col =>
      block.cell_at_row_col block_row block_col &&
        ! bd.free_at_row_col (row + block_row) (col + block_col)

/-- Second pass of `Board::can_place` (lines 148-172): some marked block
cell has a 4-directional board neighbour (bounds-guarded with `i32`
arithmetic, as in the source) holding the player's own `block_type`. -/
def Board.sidesViolation (bd : Board) (row col : Nat) (block : Block)
    (block_type : CellType) : Bool :=
  (List.range block.nrows).any fun block_row =>
    (List.range block.ncols).any fun block_col =>
      block.cell_at_row_col block_row block_col &&
        ([((-1 : Int), (0 : Int)), (1, 0), (0, -1), (0, 1)].any fun d =>
          let board_row : Int := ((row + block_row : Nat) : Int)
          let board_col : Int := ((col + block_col : Nat) : Int)
          if board_row + d.1 ≥ 0 ∧ board_col + d.2 ≥ 0 ∧
              board_row + d.1 < (bd.nrows : Int) ∧ board_col + d.2 < (bd.ncols : Int) then
            (bd.data.getD (board_row + d.1).toNat []).getD (board_col + d.2).toNat FREE_CELL
              == block_type
          else false)

/-- First-move corner pass of `Board::can_place` (lines 178-208): some one
of the four physical corners is still free and is covered by a marked cell
of the anchored block (`no_corner = Some(false)`).  The corner coordinates
use the source's `nrows - 1` / `ncols - 1`; the debug-mode `usize`
underflow they would incur on a zero-dimension board is modelled by
`Board.can_place_checked`, and for the verdict itself Nat truncation and
`usize` wrap-around agree because `free_at_row_col` rejects every
coordinate on a zero-dimension board. -/
def Board.cornerFilled (bd : Board) (row col : Nat) (block : Block) : Bool :=
  ([(0, 0), (0, bd.ncols - 1), (bd.nrows - 1, 0), (bd.nrows - 1, bd.ncols - 1)].any
    fun corner =>
      bd.free_at_row_col corner.1 corner.2 &&
        (let relative_row : Int := (corner.1 : Int) - (row : Int)
         let relative_col : Int := (corner.2 : Int) - (col : Int)
         if relative_row ≥ 0 ∧ relative_col ≥ 0 ∧
             relative_row < (block.nrows : Int) ∧ relative_col < (block.ncols : Int) then
           block.cell_at_row_col relative_row.toNat relative_col.toNat
         else false))

/-- Subsequent-move corner pass of `Board::can_place` (lines 210-238): some
marked block cell has a diagonal board neighbour holding the player's own
`block_type` (`no_corner = Some(false)`). -/
def Board.cornerTouch (bd : Board) (row col : Nat) (block : Block)
    (block_type : CellType) : Bool :=
  (List.range block.nrows).any fun block_row =>
    (List.range block.ncols).any fun block_col =>
      block.cell_at_row_col block_row block_col &&
        ([((-1 : Int), (-1 : Int)), (1, 1), (1, -1), (-1, 1)].any fun d =>
          let board_row : Int := ((row + block_row : Nat) : Int)
          let board_col : Int := ((col + block_col : Nat) : Int)
          if board_row + d.1 ≥ 0 ∧ board_col + d.2 ≥ 0 ∧
              board_row + d.1 < (bd.nrows : Int) ∧ board_col + d.2 < (bd.ncols : Int) then
            (bd.data.getD (board_row + d.1).toNat []).getD (board_col + d.2).toNat FREE_CELL
              == block_type
          else false)

/-- Third pass combined: `no_corner` is a violation (`Some(true)`) when the
policy selected by `first_block` finds no qualifying corner. -/
def Board.cornerViolation (bd : Board) (row col : Nat) (block : Block)
    (block_type : CellType) (first_block : Bool) : Bool :=
  if first_block then ! bd.cornerFilled row col block
  else ! bd.cornerTouch row col block block_type

/-- Structure `PlacementRule` from `board.rs`: the three-part verdict, each
check `None` (unevaluated) or `Some` (violation flag). -/
structure PlacementRule where
  overlapping : Option Bool
  own_block_touching_sides : Option Bool
  no_corner : Option Bool
  deriving Repr, DecidableEq

/-- Embeds `PlacementRule::placement_ok`: the `matches!` against
`(Some(false), Some(false), Some(false))`. -/
def PlacementRule.placement_ok (pr : PlacementRule) : Bool :=
  match pr.overlapping, pr.own_block_touching_sides, pr.no_corner with
  | some false, some false, some false => true
  | _, _, _ => false

/-- Embeds `Board::can_place` with its short-circuiting early returns: the
first violated pass returns immediately, leaving the later fields `none`. -/
def Board.can_place (bd : Board) (row col : Nat) (block : Block)
    (block_type : CellType) (first_block : Bool) : PlacementRule :=
  if bd.overlapViolation row col block then
    { overlapping := some true, own_block_touching_sides := none, no_corner := none }
  else if bd.sidesViolation row col block block_type then
    { overlapping := some false, own_block_touching_sides := some true, no_corner := none }
  else
    { overlapping := some false, own_block_touching_sides := some false,
      no_corner := some (bd.cornerViolation row col block block_type first_block) }

/-- Embeds `Board::can_place` together with its one unguarded partial
operation: the first-move corner pass computes `nrows - 1` and `ncols - 1`
on `usize`, which underflows (a debug-build panic) when the corresponding
dimension is zero.  The result is `none` exactly when that subtraction
would be reached with a zero dimension, and `some` of the verdict
otherwise.  (All `DMatrix` index accesses in the three passes sit behind
explicit bounds guards in the source and cannot go out of range.) -/
def Board.can_place_checked (bd : Board) (row col : Nat) (block : Block)
    (block_type : CellType) (first_block : Bool) : Option PlacementRule :=
  if bd.overlapViolation row col block then
    some { overlapping := some true, own_block_touching_sides := none, no_corner := none }
  else if bd.sidesViolation row col block block_type then
    some { overlapping := some false, own_block_touching_sides := some true, no_corner := none }
  else if first_block ∧ (bd.nrows = 0 ∨ bd.ncols = 0) then
    none
  else
    some (bd.can_place row col block block_type first_block)

/-- Writes one board cell, leaving the board unchanged when the coordinate
is out of range (the in-range case is the only one `Board::place` may reach
without panicking; see `Board.place`). -/
def Board.setCell (bd : Board) (row col : Nat) (v : CellType) : Board :=
  { bd with data := bd.data.set row ((bd.data.getD row []).set col v) }

/-- Embeds `Board::place`: unconditionally writes `block_type` into every
board cell under a marked block cell, with no legality check.  The Rust
indexing `self.data[(board_row, board_col)]` panics out of range; theorems
about completed executions therefore carry an in-bounds footprint
hypothesis. -/
def Board.place (bd : Board) (row col : Nat) (block : Block)
    (block_type : CellType) : Board :=
  (List.range block.nrows).foldl
    (fun acc block_row =>
      (List.range block.ncols).foldl
        (fun acc2 block_col =>
          if block.cell_at_row_col block_row block_col then
            acc2.setCell (row + block_row) (col + block_col) block_type
          else acc2)
        acc)
    bd

/-- Structure `BlockPosition` from `board.rs`. -/
structure BlockPosition where
  row : Nat
  col : Nat
  rotation : Nat
  transposition : Nat
  deriving Repr, DecidableEq

/-- Structure `BruteForceSearchPlace` from `board.rs`: the resumable search
state (owned copies of block and board, plus the resume cursor `start`). -/
structure BruteForceSearchPlace where
  block : Block
  block_type : CellType
  first_block : Bool
  board : Board
  start : Nat
  deriving Repr, DecidableEq

/-- Orientation applied inside `Iterator::next` for `BruteForceSearchPlace`
(and `BlockPlacement::as_row_col_block` in `strategy.rs`): transpose when
`transposition != 0`, then rotate `rotation` quarter turns (the `match`
treats any value other than 1, 2, 3 as zero turns). -/
def orientedBlock (block : Block) (transposition rotation : Nat) : Block :=
  let b := if transposition = 0 then block else block.transpose
  match rotation with
  | 1 => b.rotate_90
  | 2 => b.rotate_90.rotate_90
  | 3 => b.rotate_90.rotate_90.rotate_90
  | _ => b

namespace BruteForceSearchPlace

/-- Size of the flattened search space scanned by `next`:
`2 * 4 * nrows * ncols`. -/
def iterations (s : BruteForceSearchPlace) : Nat :=
  2 * 4 * s.board.nrows * s.board.ncols

/-- Decoding of a flattened linear index into a candidate, exactly as in
the body of `Iterator::next`. -/
def decode (s : BruteForceSearchPlace) (i : Nat) : BlockPosition :=
  { col := i % s.board.ncols
    row := (i / s.board.ncols) % s.board.nrows
    rotation := (i / (s.board.ncols * s.board.nrows)) % 4
    transposition := (i / (s.board.ncols * s.board.nrows * 4)) % 2 }

/-- Loop body condition of `Iterator::next`: the candidate decoded from
index `i`, oriented accordingly, passes `can_place`. -/
def okAt (s : BruteForceSearchPlace) (i : Nat) : Bool :=
  let p := s.decode i
  (s.board.can_place p.row p.col
    (orientedBlock s.block p.transposition p.rotation)
    s.block_type s.first_block).placement_ok

/-- Body of the scanning loop of `Iterator::next`: `for i in start..iterations`
performs exactly `iterations - start` trials, so the loop is modelled by
structural recursion on that count, the index advancing by one per trial. -/
def loopFrom (s : BruteForceSearchPlace) : Nat → Nat → Option Nat
  | 0, _ => none
  | fuel + 1, i => if s.okAt i then some i else s.loopFrom fuel (i + 1)

/-- The scanning loop of `Iterator::next`: the least index `j ≥ i` below
`iterations` whose candidate is legal. -/
def findFrom (s : BruteForceSearchPlace) (i : Nat) : Option Nat :=
  s.loopFrom (s.iterations - i) i

/-- Embeds `Iterator::next` for `BruteForceSearchPlace`: scan from the
resume cursor, return the first legal candidate and the state with the
cursor advanced past it (`self.start = i + 1`), or `None` when the scan is
exhausted. -/
def next (s : BruteForceSearchPlace) :
    Option (BlockPosition × BruteForceSearchPlace) :=
  match s.findFrom s.start with
  | some i => some (s.decode i, { s with start := i + 1 })
  | none => none

end BruteForceSearchPlace

/-- Embeds `Board::bruteforce_search_place`: the iterator starts at index 0
over cloned copies of the block and the board. -/
def Board.bruteforce_search_place (bd : Board) (block : Block)
    (block_type : CellType) (first_block : Bool) : BruteForceSearchPlace :=
  { block := block, block_type := block_type, first_block := first_block
    board := bd, start := 0 }

/-- The monomino, first entry of the standard catalog
(`Block::from_str("#")`). -/
def singleBlock : Block := { nrows := 1, ncols := 1, data := [[true]] }

/-- Board cell `(r, c)` lies under a marked cell of the block anchored at
`(row, col)`: the footprint written by `Board::place`. -/
def Board.coveredBy (row col : Nat) (block : Block) (r c : Nat) : Bool :=
  (List.range block.nrows).any fun block_row =>
    (List.range block.ncols).any fun block_col =>
      block.cell_at_row_col block_row block_col &&
        (row + block_row == r) && (col + block_col == c)

/-- Modelled from the spec (§3, legality verdict): "A placement is legal iff
all three checks evaluate to no violation", each of the three pure
predicates evaluated in full on the pre-placement board. -/
def placementLegalSpec (bd : Board) (row col : Nat) (block : Block)
    (block_type : CellType) (first_block : Bool) : Bool :=
  !bd.overlapViolation row col block &&
    !bd.sidesViolation row col block block_type &&
      !bd.cornerViolation row col block block_type first_block

/-! ## Helper lemmas -/

lemma getD_range_map {α : Type} (n i : Nat) (f : Nat → α) (d : α) :
    (((List.range n).map f).getD i d) = if i < n then f i else d := by
  rw [List.getD_eq_getElem?_getD]
  by_cases h : i < n
  · simp [List.getElem?_map, List.getElem?_range, h]
  · rw [List.getElem?_eq_none (by simpa using Nat.le_of_not_lt h)]
    simp [h]

lemma getD_nil {α : Type} (i : Nat) (d : α) : ([] : List α).getD i d = d := by
  simp [List.getD]

lemma transpose_cell (b : Block) (i j : Nat) :
    b.transpose.cell_at_row_col i j =
      if i < b.ncols ∧ j < b.nrows then b.cell_at_row_col j i else false := by
  show (((List.range b.ncols).map fun r =>
      (List.range b.nrows).map fun c => b.cell_at_row_col c r).getD i []).getD j false = _
  rw [getD_range_map]
  by_cases hi : i < b.ncols
  · rw [if_pos hi, getD_range_map]
    by_cases hj : j < b.nrows
    · simp [hi, hj]
    · simp [hi, hj]
  · rw [if_neg hi, getD_nil, if_neg (by tauto)]

lemma getD_reverse {α : Type} (l : List α) (i : Nat) (d : α) (h : i < l.length) :
    l.reverse.getD i d = l.getD (l.length - 1 - i) d := by
  rw [List.getD_eq_getElem?_getD, List.getD_eq_getElem?_getD, List.getElem?_reverse h]

lemma rotate_cell (b : Block) (i j : Nat) :
    b.rotate_90.cell_at_row_col i j =
      if i < b.ncols ∧ j < b.nrows then b.cell_at_row_col (b.nrows - 1 - j) i else false := by
  show ((((List.range b.ncols).map fun r =>
      (List.range b.nrows).map fun c => b.cell_at_row_col c r).map
        List.reverse).getD i []).getD j false = _
  rw [List.map_map, getD_range_map]
  by_cases hi : i < b.ncols
  · rw [if_pos hi]
    show ((List.range b.nrows).map fun c => b.cell_at_row_col c i).reverse.getD j false = _
    by_cases hj : j < b.nrows
    · rw [getD_reverse _ _ _ (by simpa using hj), List.length_map, List.length_range,
        getD_range_map, if_pos (by omega), if_pos ⟨hi, hj⟩]
    · rw [List.getD_eq_getElem?_getD,
        List.getElem?_eq_none (by simp; omega)]
      simp [hi, hj]
  · rw [if_neg hi, getD_nil, if_neg (by tauto)]

lemma rotate_WF (b : Block) : b.rotate_90.WF := by
  constructor
  · simp [Block.rotate_90, Block.transpose]
  · intro row hrow
    simp only [Block.rotate_90, Block.transpose, List.map_map, List.mem_map] at hrow
    obtain ⟨r, _, rfl⟩ := hrow
    simp [Block.rotate_90, Block.transpose]

lemma rotate_nrows (b : Block) : b.rotate_90.nrows = b.ncols := rfl

lemma rotate_ncols (b : Block) : b.rotate_90.ncols = b.nrows := rfl

/-- A well-formed block is determined by its dimensions and its cell
function. -/
lemma block_ext (b b' : Block) (hb : b.WF) (hb' : b'.WF)
    (hr : b.nrows = b'.nrows) (hc : b.ncols = b'.ncols)
    (hcell : ∀ i j, i < b.nrows → j < b.ncols →
      b.cell_at_row_col i j = b'.cell_at_row_col i j) : b = b' := by
  obtain ⟨hlen, hrow⟩ := hb
  obtain ⟨hlen', hrow'⟩ := hb'
  cases b with
  | mk nr nc data =>
  cases b' with
  | mk nr' nc' data' =>
  simp only at hr hc hlen hlen' hrow hrow' hcell ⊢
  subst hr hc
  refine congrArg (Block.mk nr nc) ?_
  apply List.ext_getElem (by omega)
  intro i h1 h2
  have hrlen : data[i].length = nc := hrow _ (List.getElem_mem h1)
  have hrlen' : data'[i].length = nc := hrow' _ (List.getElem_mem h2)
  apply List.ext_getElem (by omega)
  intro j hj1 hj2
  have := hcell i j (by omega) (by omega)
  simp only [Block.cell_at_row_col, List.getD_eq_getElem?_getD] at this
  rw [List.getElem?_eq_getElem h1, List.getElem?_eq_getElem h2] at this
  simp only [Option.getD_some] at this
  rw [List.getElem?_eq_getElem hj1, List.getElem?_eq_getElem hj2] at this
  simpa using this

/-- The final verdict of `can_place` is legal exactly when all three pure
passes are violation-free; shared by several claim theorems. -/
lemma can_place_ok_iff (bd : Board) (row col : Nat) (block : Block)
    (block_type : CellType) (first_block : Bool) :
    (bd.can_place row col block block_type first_block).placement_ok = true ↔
      bd.overlapViolation row col block = false ∧
        bd.sidesViolation row col block block_type = false ∧
          bd.cornerViolation row col block block_type first_block = false := by
  unfold Board.can_place PlacementRule.placement_ok
  by_cases h1 : bd.overlapViolation row col block
  · simp [h1]
  · by_cases h2 : bd.sidesViolation row col block block_type
    · simp [h1, h2]
    · by_cases h3 : bd.cornerViolation row col block block_type first_block
      · simp [h1, h2, h3]
      · simp [h1, h2, h3]

/-! ## Claim theorems -/

/-- C1: for every board state, anchor coordinate, piece, player identifier
and first-move flag, the verdict of the short-circuiting `can_place` is
legal if and only if the three independent checks (overlap, same-owner
edge-adjacency, corner policy) each evaluate to no-violation in full on the
pre-placement board. -/
theorem can_place_equiv_three_pure_checks (bd : Board) (row col : Nat)
    (block : Block) (block_type : CellType) (first_block : Bool) :
    (bd.can_place row col block block_type first_block).placement_ok =
      placementLegalSpec bd row col block block_type first_block := by
  unfold placementLegalSpec
  rcases hov : bd.overlapViolation row col block <;>
    rcases hsv : bd.sidesViolation row col block block_type <;>
      rcases hcv : bd.cornerViolation row col block block_type first_block <;>
        simp [Board.can_place, PlacementRule.placement_ok, hov, hsv, hcv]

/-- C7: for every piece `p`, four quarter-turn clockwise rotations return a
piece equal to `p`: `rotate(rotate(rotate(rotate(p)))) == p`. -/
theorem rotate_90_fourth_iterate_id (b : Block) (hb : b.WF) :
    b.rotate_90.rotate_90.rotate_90.rotate_90 = b := by
  apply block_ext _ _ (rotate_WF _) hb
  · rfl
  · rfl
  intro i j hi hj
  have hi' : i < b.nrows := hi
  have hj' : j < b.ncols := hj
  simp only [rotate_cell, rotate_nrows, rotate_ncols]
  rw [if_pos ⟨by omega, by omega⟩, if_pos ⟨by omega, by omega⟩,
    if_pos ⟨by omega, by omega⟩, if_pos ⟨by omega, by omega⟩]
  have e1 : b.ncols - 1 - (b.ncols - 1 - j) = j := by omega
  have e2 : b.nrows - 1 - (b.nrows - 1 - i) = i := by omega
  rw [e1, e2]

/-- A piece with a marked cell makes the overlap pass fail whenever the
board has a zero dimension, since no coordinate on such a board is free. -/
lemma overlapViolation_of_zero_dim (bd : Board) (row col : Nat) (block : Block)
    (hcell : block.hasCell = true) (hdim : bd.nrows = 0 ∨ bd.ncols = 0) :
    bd.overlapViolation row col block = true := by
  rw [Block.hasCell, List.any_eq_true] at hcell
  obtain ⟨r, hr, hrest⟩ := hcell
  rw [List.any_eq_true] at hrest
  obtain ⟨c, hc, hcella⟩ := hrest
  rw [Board.overlapViolation, List.any_eq_true]
  refine ⟨r, hr, ?_⟩
  rw [List.any_eq_true]
  refine ⟨c, hc, ?_⟩
  rw [hcella, Board.free_at_row_col, if_neg]
  · rfl
  · rintro ⟨h1, h2⟩
    omega

/-- C9: for every board (of any dimensions), anchor coordinate (including
out-of-range ones), piece with at least one marked cell, player identifier
and first-move flag, the checker reaches no error branch: the checked
variant (which flags the only unguarded partial operation, the `usize`
corner-coordinate subtraction on a zero-dimension board) returns the
defined verdict of `can_place`. -/
theorem can_place_total_no_error (bd : Board) (row col : Nat) (block : Block)
    (block_type : CellType) (first_block : Bool)
    (hcell : block.hasCell = true) :
    bd.can_place_checked row col block block_type first_block =
      some (bd.can_place row col block block_type first_block) := by
  unfold Board.can_place_checked Board.can_place
  by_cases h1 : bd.overlapViolation row col block
  · simp [h1]
  · by_cases h2 : bd.sidesViolation row col block block_type
    · simp [h1, h2]
    · have hdim : ¬(first_block = true ∧ (bd.nrows = 0 ∨ bd.ncols = 0)) := by
        rintro ⟨-, hd⟩
        exact h1 (overlapViolation_of_zero_dim bd row col block hcell hd)
      simp [h1, h2, hdim]

/-- C9 witness: the checked checker agrees with `can_place` for the
monomino on an empty 2×2 board, first move, even at the out-of-range
anchor (7, 9). -/
theorem can_place_total_no_error_witness :
    singleBlock.hasCell = true ∧
      (Board.new 2 2).can_place_checked 7 9 singleBlock 1 true =
        some ((Board.new 2 2).can_place 7 9 singleBlock 1 true) :=
  ⟨by decide, can_place_total_no_error (Board.new 2 2) 7 9 singleBlock 1 true (by decide)⟩

/-- C10: any placement that `can_place` reports as legal has its entire
marked footprint within board bounds (an out-of-range marked cell is
counted as not free and flags the overlap violation), so `Board::place`
applied to a candidate that passed the check never indexes outside the
board. -/
theorem legal_placement_footprint_in_bounds (bd : Board) (row col : Nat)
    (block : Block) (block_type : CellType) (first_block : Bool)
    (hok : (bd.can_place row col block block_type first_block).placement_ok = true) :
    ∀ block_row block_col, block_row < block.nrows → block_col < block.ncols →
      block.cell_at_row_col block_row block_col = true →
      row + block_row < bd.nrows ∧ col + block_col < bd.ncols := by
  intro block_row block_col hbr hbc hcell
  obtain ⟨hov, -, -⟩ := (can_place_ok_iff bd row col block block_type first_block).mp hok
  rw [Board.overlapViolation, List.any_eq_false] at hov
  have h1 := hov block_row (List.mem_range.mpr hbr)
  rw [Bool.not_eq_true, List.any_eq_false] at h1
  have h2 := h1 block_col (List.mem_range.mpr hbc)
  rw [hcell] at h2
  simp only [Bool.true_and, Bool.not_eq_true, Bool.not_eq_false] at h2
  rw [Board.free_at_row_col] at h2
  by_cases hcond : row + block_row < bd.nrows ∧ col + block_col < bd.ncols
  · exact hcond
  · rw [if_neg hcond] at h2
    exact absurd h2 (by simp)

/-- C10 witness: the in-bounds consequence at a concrete legal placement:
the monomino at the free corner (0, 0) of an empty 3×3 board. -/
theorem legal_placement_footprint_in_bounds_witness :
    ((Board.new 3 3).can_place 0 0 singleBlock 1 true).placement_ok = true ∧
      (0 + 0 < (Board.new 3 3).nrows ∧ 0 + 0 < (Board.new 3 3).ncols) :=
  ⟨by decide,
    legal_placement_footprint_in_bounds (Board.new 3 3) 0 0 singleBlock 1 true
      (by decide) 0 0 (by decide) (by decide) (by decide)⟩

/-- C2 counterexample: the claim asserts that a footprint extending past
the board's far edge is treated as FREE and passes the overlap check; in
the code `free_at_row_col` reports out-of-range cells as NOT free, so the
monomino anchored at (2, 0) on an empty 2×2 board is rejected with
`overlapping = Some(true)`. -/
theorem out_of_bounds_overlap_cex :
    ((Board.new 2 2).can_place 2 0 singleBlock 1 true).overlapping = some true ∧
      ((Board.new 2 2).can_place 2 0 singleBlock 1 true).placement_ok = false := by
  decide

/-- C2 amended: for every board and every placement candidate with a marked
cell mapping past the board's edges, the overlap check treats that cell as
not free (`free_at_row_col` returns `false` out of range) and reports an
overlap violation, so the candidate IS rejected for overlap on its off-board
cells. -/
theorem out_of_bounds_footprint_flags_overlap (bd : Board) (row col : Nat)
    (block : Block) (block_type : CellType) (first_block : Bool)
    (block_row block_col : Nat) (hbr : block_row < block.nrows)
    (hbc : block_col < block.ncols)
    (hcell : block.cell_at_row_col block_row block_col = true)
    (hoob : bd.nrows ≤ row + block_row ∨ bd.ncols ≤ col + block_col) :
    (bd.can_place row col block block_type first_block).overlapping = some true ∧
      (bd.can_place row col block block_type first_block).placement_ok = false := by
  have hov : bd.overlapViolation row col block = true := by
    rw [Board.overlapViolation, List.any_eq_true]
    refine ⟨block_row, List.mem_range.mpr hbr, ?_⟩
    rw [List.any_eq_true]
    refine ⟨block_col, List.mem_range.mpr hbc, ?_⟩
    rw [hcell, Board.free_at_row_col, if_neg (by omega)]
    rfl
  rw [Board.can_place, if_pos hov]
  exact ⟨rfl, rfl⟩

/-- C2 amended witness: the monomino anchored one row past the bottom edge
of an empty 2×2 board. -/
theorem out_of_bounds_footprint_flags_overlap_witness :
    ((Board.new 2 2).can_place 2 1 singleBlock 3 false).overlapping = some true ∧
      ((Board.new 2 2).can_place 2 1 singleBlock 3 false).placement_ok = false :=
  out_of_bounds_footprint_flags_overlap (Board.new 2 2) 2 1 singleBlock 3 false
    0 0 (by decide) (by decide) (by decide) (by decide)

/-- Row lengths of the parsed boolean grid coincide with the lengths of the
input lines. -/
lemma rows_lengths (lines : List String) :
    (lines.map fun line => line.toList.map fun c => c == '#').map List.length
      = lines.map String.length := by
  rw [List.map_map]
  apply List.map_congr_left
  intro l _
  simp only [Function.comp_apply, List.length_map]
  rfl

/-- C4 counterexample: the claim says a shape text with equal line lengths
but zero marked cells fails with the empty-shape error; the code accepts
the all-blank text `"_"` and returns a piece with zero marked cells. -/
theorem fromLines_blank_accepted_cex :
    Block.fromLines ["_"] = .ok (Block.mk 1 1 [[false]]) ∧
      (Block.mk 1 1 [[false]]).cells = 0 := ⟨by rfl, by decide⟩

/-- C4 amended: construction fails with `EmptyBlock` exactly when the
(equal) line lengths are zero — in particular for the empty text; a shape
text whose lines have equal nonzero cell-counts and no `'#'` is accepted
and yields a piece with zero marked cells. -/
theorem fromLines_empty_error_spec :
    (∀ lines : List String,
        (Block.fromLines lines = .error .EmptyBlock ↔
          ((lines.map String.length).min?.getD 0 = (lines.map String.length).max?.getD 0 ∧
            (lines.map String.length).max?.getD 0 = 0))) ∧
      (∀ lines : List String,
        (lines.map String.length).min?.getD 0 = (lines.map String.length).max?.getD 0 →
        (lines.map String.length).max?.getD 0 ≠ 0 →
        (∀ l ∈ lines, ∀ ch ∈ l.toList, ch ≠ '#') →
        ∃ b : Block, Block.fromLines lines = .ok b ∧ b.cells = 0) := by
  constructor
  · intro lines
    simp only [Block.fromLines]
    rw [rows_lengths]
    split_ifs with h1 h2
    · simp only [Except.error.injEq]
      constructor
      · intro h; cases h
      · rintro ⟨ha, -⟩; exact absurd ha h1
    · simp only [not_ne_iff] at h1
      simp [h1, h2]
    · simp only [not_ne_iff] at h1
      constructor
      · intro h; cases h
      · rintro ⟨-, hb⟩; exact absurd hb h2
  · intro lines h1 h2 hnohash
    refine ⟨Block.mk lines.length ((lines.map String.length).max?.getD 0)
        (lines.map fun line => line.toList.map fun c => c == '#'), ?_, ?_⟩
    · simp only [Block.fromLines]
      rw [rows_lengths, if_neg (not_ne_iff.mpr h1), if_neg h2]
      simp [List.length_map]
    · show Block.cells _ = 0
      unfold Block.cells
      apply List.sum_eq_zero
      intro x hx
      rw [List.map_map, List.mem_map] at hx
      obtain ⟨l, hl, rfl⟩ := hx
      simp only [Function.comp_apply]
      rw [List.count_eq_zero]
      intro htrue
      rw [List.mem_map] at htrue
      obtain ⟨ch, hch, hbeq⟩ := htrue
      exact hnohash l hl ch hch (by simpa using hbeq.symm)

/-- C4 amended witness: the all-blank one-character shape text. -/
theorem fromLines_empty_error_spec_witness :
    ∃ b : Block, Block.fromLines ["_"] = .ok b ∧ b.cells = 0 :=
  fromLines_empty_error_spec.2 ["_"] (by decide) (by decide) (by decide)

/-- Characterization of the bounded scanning loop: a `some` result is the
least legal index in the scanned window, a `none` result means the window
holds none. -/
lemma loopFrom_spec (s : BruteForceSearchPlace) :
    ∀ fuel i,
      (∀ j, s.loopFrom fuel i = some j →
        i ≤ j ∧ j < i + fuel ∧ s.okAt j = true ∧
          ∀ k, i ≤ k → k < j → s.okAt k = false) ∧
      (s.loopFrom fuel i = none →
        ∀ k, i ≤ k → k < i + fuel → s.okAt k = false) := by
  intro fuel
  induction fuel with
  | zero =>
    intro i
    constructor
    · intro j h
      exact absurd h (by simp [BruteForceSearchPlace.loopFrom])
    · intro _ k hk1 hk2
      omega
  | succ n ih =>
    intro i
    constructor
    · intro j h
      rw [BruteForceSearchPlace.loopFrom] at h
      by_cases hok : s.okAt i
      · rw [if_pos hok] at h
        injection h with h
        subst h
        exact ⟨le_refl _, by omega, hok, fun k hk1 hk2 => by omega⟩
      · rw [if_neg hok] at h
        obtain ⟨h1, h2, h3, h4⟩ := (ih (i + 1)).1 j h
        refine ⟨by omega, by omega, h3, ?_⟩
        intro k hk1 hk2
        rcases Nat.eq_or_lt_of_le hk1 with rfl | hlt
        · exact Bool.eq_false_iff.mpr hok
        · exact h4 k (by omega) hk2
    · intro h k hk1 hk2
      rw [BruteForceSearchPlace.loopFrom] at h
      by_cases hok : s.okAt i
      · rw [if_pos hok] at h
        cases h
      · rw [if_neg hok] at h
        rcases Nat.eq_or_lt_of_le hk1 with rfl | hlt
        · exact Bool.eq_false_iff.mpr hok
        · exact (ih (i + 1)).2 h k (by omega) (by omega)

/-- Characterization of `findFrom`: least legal index at or after the
cursor, bounded by `iterations`. -/
lemma findFrom_spec (s : BruteForceSearchPlace) (i : Nat) :
    (∀ j, s.findFrom i = some j →
      i ≤ j ∧ j < s.iterations ∧ s.okAt j = true ∧
        ∀ k, i ≤ k → k < j → s.okAt k = false) ∧
    (s.findFrom i = none → ∀ k, i ≤ k → k < s.iterations → s.okAt k = false) := by
  unfold BruteForceSearchPlace.findFrom
  constructor
  · intro j h
    by_cases hcase : i ≤ s.iterations
    · obtain ⟨h1, h2, h3, h4⟩ := (loopFrom_spec s (s.iterations - i) i).1 j h
      exact ⟨h1, by omega, h3, h4⟩
    · have h0 : s.iterations - i = 0 := by omega
      rw [h0] at h
      exact absurd h (by simp [BruteForceSearchPlace.loopFrom])
  · intro h k hk1 hk2
    exact (loopFrom_spec s _ i).2 h k hk1 (by omega)

/-- Arithmetic of the flattened linear index: decoding the encoding of
`(transposition, rotation, row, col)` — outer to inner — recovers the
components, and the encoding stays below `2 * 4 * rows * cols`. -/
lemma encode_decode (m n t r row col : Nat)
    (ht : t < 2) (hr : r < 4) (hrow : row < m) (hcol : col < n) :
    ((((t * 4 + r) * m + row) * n + col) % n = col ∧
      ((((t * 4 + r) * m + row) * n + col) / n) % m = row ∧
      ((((t * 4 + r) * m + row) * n + col) / (n * m)) % 4 = r ∧
      ((((t * 4 + r) * m + row) * n + col) / (n * m * 4)) % 2 = t) ∧
    ((t * 4 + r) * m + row) * n + col < 2 * 4 * m * n := by
  have hn : 0 < n := by omega
  have hm : 0 < m := by omega
  have hsmall : row * n + col < n * m := by
    calc row * n + col < row * n + n := by omega
    _ = (row + 1) * n := by ring
    _ ≤ m * n := Nat.mul_le_mul_right n (by omega)
    _ = n * m := Nat.mul_comm m n
  refine ⟨⟨?_, ?_, ?_, ?_⟩, ?_⟩
  · have hE : ((t * 4 + r) * m + row) * n + col = col + ((t * 4 + r) * m + row) * n := by
      ring
    rw [hE, Nat.add_mul_mod_self_right, Nat.mod_eq_of_lt hcol]
  · have hE : ((t * 4 + r) * m + row) * n + col = col + ((t * 4 + r) * m + row) * n := by
      ring
    rw [hE, Nat.add_mul_div_right _ _ hn, Nat.div_eq_of_lt hcol, Nat.zero_add]
    have hE2 : (t * 4 + r) * m + row = row + (t * 4 + r) * m := by ring
    rw [hE2, Nat.add_mul_mod_self_right, Nat.mod_eq_of_lt hrow]
  · have hE : ((t * 4 + r) * m + row) * n + col = (row * n + col) + (t * 4 + r) * (n * m) := by
      ring
    rw [hE, Nat.add_mul_div_right _ _ (Nat.mul_pos hn hm), Nat.div_eq_of_lt hsmall,
      Nat.zero_add]
    have hE2 : t * 4 + r = r + t * 4 := by ring
    rw [hE2, Nat.add_mul_mod_self_right, Nat.mod_eq_of_lt hr]
  · have hE : ((t * 4 + r) * m + row) * n + col =
        (r * (n * m) + row * n + col) + t * (n * m * 4) := by ring
    have hrem : r * (n * m) + row * n + col < n * m * 4 := by
      calc r * (n * m) + row * n + col < r * (n * m) + n * m := by omega
      _ = (r + 1) * (n * m) := by ring
      _ ≤ 4 * (n * m) := Nat.mul_le_mul_right (n * m) (by omega)
      _ = n * m * 4 := by ring
    rw [hE, Nat.add_mul_div_right _ _ (by positivity), Nat.div_eq_of_lt hrem, Nat.zero_add,
      Nat.mod_eq_of_lt ht]
  · calc ((t * 4 + r) * m + row) * n + col
        = (t * 4 + r) * (m * n) + (row * n + col) := by ring
    _ < (t * 4 + r) * (m * n) + m * n :=
        Nat.add_lt_add_left (by rw [Nat.mul_comm m n]; exact hsmall) _
    _ = (t * 4 + r + 1) * (m * n) := by ring
    _ ≤ 8 * (m * n) := Nat.mul_le_mul_right (m * n) (by omega)
    _ = 2 * 4 * m * n := by ring

/-- C5: every candidate yielded by the placement enumerator is legal per
`can_place`; candidates are yielded in strictly increasing flattened linear
index — the least legal index at or after the cursor, none being skipped —
each pull resuming from the index right after the previous yield
(`start = i + 1`); and the flattened index realizes the outer-to-inner
nesting (transposition < 2) × (rotation < 4) × (row < rows) × (col < cols)
scanned from 0 upward. -/
theorem bruteforce_next_spec :
    (∀ (s : BruteForceSearchPlace) (p : BlockPosition) (s' : BruteForceSearchPlace),
      s.next = some (p, s') →
      ∃ i, s.start ≤ i ∧ i < s.iterations ∧ p = s.decode i ∧
        s' = { s with start := i + 1 } ∧
        (s.board.can_place p.row p.col
          (orientedBlock s.block p.transposition p.rotation)
          s.block_type s.first_block).placement_ok = true ∧
        ∀ k, s.start ≤ k → k < i → s.okAt k = false) ∧
    (∀ s : BruteForceSearchPlace, s.next = none →
      ∀ k, s.start ≤ k → k < s.iterations → s.okAt k = false) ∧
    (∀ (s : BruteForceSearchPlace) (t r row col : Nat),
      t < 2 → r < 4 → row < s.board.nrows → col < s.board.ncols →
      s.decode (((t * 4 + r) * s.board.nrows + row) * s.board.ncols + col) =
        BlockPosition.mk row col r t ∧
      ((t * 4 + r) * s.board.nrows + row) * s.board.ncols + col < s.iterations) := by
  refine ⟨?_, ?_, ?_⟩
  · intro s p s' h
    rw [BruteForceSearchPlace.next] at h
    cases hf : s.findFrom s.start with
    | none => rw [hf] at h; cases h
    | some i =>
      rw [hf] at h
      injection h with h
      injection h with hp hs'
      obtain ⟨h1, h2, h3, h4⟩ := (findFrom_spec s s.start).1 i hf
      refine ⟨i, h1, h2, hp.symm, hs'.symm, ?_, h4⟩
      rw [hp.symm]
      simpa [BruteForceSearchPlace.okAt] using h3
  · intro s h
    rw [BruteForceSearchPlace.next] at h
    cases hf : s.findFrom s.start with
    | none => exact (findFrom_spec s s.start).2 hf
    | some i => rw [hf] at h; cases h
  · intro s t r row col ht hr hrow hcol
    obtain ⟨⟨e1, e2, e3, e4⟩, e5⟩ :=
      encode_decode s.board.nrows s.board.ncols t r row col ht hr hrow hcol
    constructor
    · unfold BruteForceSearchPlace.decode
      rw [BlockPosition.mk.injEq]
      exact ⟨e2, e1, e3, e4⟩
    · exact e5

/-- C5 witness: the index-order conjunct at a concrete search state —
transposition 1, rotation 2, row 1, col 0 on a 2×2 board decode from their
flattened index, which lies below the iteration bound. -/
theorem bruteforce_next_spec_witness :
    ((Board.new 2 2).bruteforce_search_place singleBlock 1 true).decode
        (((1 * 4 + 2) *
            ((Board.new 2 2).bruteforce_search_place singleBlock 1 true).board.nrows + 1) *
          ((Board.new 2 2).bruteforce_search_place singleBlock 1 true).board.ncols + 0) =
      BlockPosition.mk 1 0 2 1 ∧
    ((1 * 4 + 2) *
          ((Board.new 2 2).bruteforce_search_place singleBlock 1 true).board.nrows + 1) *
        ((Board.new 2 2).bruteforce_search_place singleBlock 1 true).board.ncols + 0 <
      ((Board.new 2 2).bruteforce_search_place singleBlock 1 true).iterations :=
  bruteforce_next_spec.2.2 ((Board.new 2 2).bruteforce_search_place singleBlock 1 true)
    1 2 1 0 (by decide) (by decide) (by decide) (by decide)

lemma getD_set_eq {α : Type} (l : List α) (i : Nat) (a d : α) (h : i < l.length) :
    (l.set i a).getD i d = a := by
  rw [List.getD_eq_getElem?_getD, List.getElem?_set_self h, Option.getD_some]

lemma getD_set_ne {α : Type} (l : List α) (i j : Nat) (a d : α) (h : i ≠ j) :
    (l.set i a).getD j d = l.getD j d := by
  rw [List.getD_eq_getElem?_getD, List.getElem?_set_ne h, ← List.getD_eq_getElem?_getD]

lemma getD_in_range {α : Type} (l : List α) (i : Nat) (d : α) (h : i < l.length) :
    l.getD i d = l[i] := by
  rw [List.getD_eq_getElem?_getD, List.getElem?_eq_getElem h, Option.getD_some]

lemma setCell_nrows (bd : Board) (r c : Nat) (v : CellType) :
    (bd.setCell r c v).nrows = bd.nrows := rfl

lemma setCell_ncols (bd : Board) (r c : Nat) (v : CellType) :
    (bd.setCell r c v).ncols = bd.ncols := rfl

lemma setCell_WF (bd : Board) (r c : Nat) (v : CellType) (h : bd.WF) :
    (bd.setCell r c v).WF := by
  obtain ⟨hlen, hrow⟩ := h
  by_cases hr : bd.data.length ≤ r
  · unfold Board.WF Board.setCell
    rw [List.set_eq_of_length_le hr]
    exact ⟨hlen, hrow⟩
  · push_neg at hr
    constructor
    · simpa [Board.setCell] using hlen
    · intro x hx
      simp only [Board.setCell] at hx
      rcases List.mem_or_eq_of_mem_set hx with hmem | rfl
      · exact hrow x hmem
      · rw [List.length_set, getD_in_range _ _ _ hr]
        exact hrow _ (List.getElem_mem hr)

lemma at_setCell (bd : Board) (r0 c0 : Nat) (v : CellType) (h : bd.WF) (r c : Nat) :
    (bd.setCell r0 c0 v).at_row_col r c =
      if r0 = r ∧ c0 = c ∧ r < bd.nrows ∧ c < bd.ncols then v
      else bd.at_row_col r c := by
  obtain ⟨hlen, hrow⟩ := h
  unfold Board.at_row_col Board.setCell
  dsimp only
  by_cases hin : r < bd.nrows ∧ c < bd.ncols
  · rw [if_pos hin, if_pos hin]
    have hrd : r < bd.data.length := by omega
    by_cases hr0 : r0 = r
    · subst hr0
      rw [getD_set_eq _ _ _ _ hrd, getD_in_range bd.data r0 [] hrd]
      have hcd : c < bd.data[r0].length := by rw [hrow _ (List.getElem_mem hrd)]; omega
      by_cases hc0 : c0 = c
      · subst hc0
        rw [getD_set_eq _ _ _ _ hcd, if_pos ⟨rfl, rfl, hin⟩]
      · rw [getD_set_ne _ _ _ _ _ hc0, if_neg (by tauto)]
    · rw [getD_set_ne _ _ _ _ _ hr0, if_neg (by tauto)]
  · rw [if_neg hin, if_neg hin, if_neg (by tauto)]



lemma inner_fold_preserve (block : Block) (ty : CellType) (row col br : Nat) :
    ∀ (l : List Nat) (bd : Board), bd.WF →
      (l.foldl (fun acc2 bc => if block.cell_at_row_col br bc then
          acc2.setCell (row + br) (col + bc) ty else acc2) bd).nrows = bd.nrows ∧
      (l.foldl (fun acc2 bc => if block.cell_at_row_col br bc then
          acc2.setCell (row + br) (col + bc) ty else acc2) bd).ncols = bd.ncols ∧
      (l.foldl (fun acc2 bc => if block.cell_at_row_col br bc then
          acc2.setCell (row + br) (col + bc) ty else acc2) bd).WF := by
  intro l
  induction l with
  | nil => exact fun bd h => ⟨rfl, rfl, h⟩
  | cons a l ih =>
    intro bd h
    simp only [List.foldl_cons]
    by_cases hc : block.cell_at_row_col br a
    · rw [if_pos hc]
      obtain ⟨d1, d2, d3⟩ := ih _ (setCell_WF _ _ _ _ h)
      exact ⟨d1, d2, d3⟩
    · rw [if_neg hc]
      exact ih bd h

lemma inner_fold_read (block : Block) (ty : CellType) (row col br : Nat) :
    ∀ (l : List Nat) (bd : Board), bd.WF → ∀ r c, r < bd.nrows → c < bd.ncols →
      (l.foldl (fun acc2 bc => if block.cell_at_row_col br bc then
          acc2.setCell (row + br) (col + bc) ty else acc2) bd).at_row_col r c =
        if l.any (fun bc => block.cell_at_row_col br bc &&
            (row + br == r) && (col + bc == c)) then ty
        else bd.at_row_col r c := by
  intro l
  induction l with
  | nil =>
    intro bd h r c hr hc
    simp
  | cons a l ih =>
    intro bd h r c hr hc
    simp only [List.foldl_cons, List.any_cons]
    by_cases hcell : block.cell_at_row_col br a
    · rw [if_pos hcell]
      rw [ih _ (setCell_WF _ _ _ _ h) r c (by exact hr) (by exact hc)]
      rw [at_setCell _ _ _ _ h]
      by_cases hpos : row + br = r ∧ col + a = c
      · have hcond : (block.cell_at_row_col br a && (row + br == r) && (col + a == c)) = true := by
          simp [hcell, hpos.1, hpos.2]
        simp only [hcond, Bool.true_or, if_true]
        split
        · rfl
        · rw [if_pos ⟨hpos.1, hpos.2, hr, hc⟩]
      · have hcond : (block.cell_at_row_col br a && (row + br == r) && (col + a == c)) = false := by
          rcases not_and_or.mp hpos with hne | hne <;> simp [hcell, hne]
        simp only [hcond, Bool.false_or]
        split
        · rfl
        · rw [if_neg (by tauto)]
    · rw [if_neg hcell]
      rw [ih _ h r c hr hc]
      have hcond : (block.cell_at_row_col br a && (row + br == r) && (col + a == c)) = false := by
        simp [hcell]
      simp only [hcond, Bool.false_or]



lemma outer_fold_preserve (block : Block) (ty : CellType) (row col : Nat) :
    ∀ (lo : List Nat) (bd : Board), bd.WF →
      (lo.foldl (fun acc br => (List.range block.ncols).foldl
          (fun acc2 bc => if block.cell_at_row_col br bc then
            acc2.setCell (row + br) (col + bc) ty else acc2) acc) bd).nrows = bd.nrows ∧
      (lo.foldl (fun acc br => (List.range block.ncols).foldl
          (fun acc2 bc => if block.cell_at_row_col br bc then
            acc2.setCell (row + br) (col + bc) ty else acc2) acc) bd).ncols = bd.ncols ∧
      (lo.foldl (fun acc br => (List.range block.ncols).foldl
          (fun acc2 bc => if block.cell_at_row_col br bc then
            acc2.setCell (row + br) (col + bc) ty else acc2) acc) bd).WF := by
  intro lo
  induction lo with
  | nil => exact fun bd h => ⟨rfl, rfl, h⟩
  | cons a lo ih =>
    intro bd h
    simp only [List.foldl_cons]
    obtain ⟨d1, d2, d3⟩ := inner_fold_preserve block ty row col a (List.range block.ncols) bd h
    obtain ⟨e1, e2, e3⟩ := ih _ d3
    exact ⟨by rw [e1, d1], by rw [e2, d2], e3⟩

lemma outer_fold_read (block : Block) (ty : CellType) (row col : Nat) :
    ∀ (lo : List Nat) (bd : Board), bd.WF → ∀ r c, r < bd.nrows → c < bd.ncols →
      (lo.foldl (fun acc br => (List.range block.ncols).foldl
          (fun acc2 bc => if block.cell_at_row_col br bc then
            acc2.setCell (row + br) (col + bc) ty else acc2) acc) bd).at_row_col r c =
        if lo.any (fun br => (List.range block.ncols).any
            (fun bc => block.cell_at_row_col br bc &&
              (row + br == r) && (col + bc == c))) then ty
        else bd.at_row_col r c := by
  intro lo
  induction lo with
  | nil =>
    intro bd h r c hr hc
    simp
  | cons a lo ih =>
    intro bd h r c hr hc
    simp only [List.foldl_cons, List.any_cons]
    obtain ⟨d1, d2, d3⟩ := inner_fold_preserve block ty row col a (List.range block.ncols) bd h
    rw [ih _ d3 r c (by rw [d1]; exact hr) (by rw [d2]; exact hc)]
    rw [inner_fold_read block ty row col a (List.range block.ncols) bd h r c hr hc]
    by_cases hcond : ((List.range block.ncols).any
        (fun bc => block.cell_at_row_col a bc && (row + a == r) && (col + bc == c))) = true
    · simp only [hcond, Bool.true_or, if_true]
      split <;> rfl
    · rw [Bool.not_eq_true] at hcond
      simp only [hcond, Bool.false_or]
      split <;> simp



/-- C8: after `place`, every board cell under a marked piece cell holds the
player identifier and every other board cell holds exactly its prior owner;
the dimensions are unchanged; and `place` performs no legality check — the
final conjunct shows it mutating a board for a candidate `can_place`
rejects.  The footprint-in-bounds hypothesis records the precondition under
which the Rust `DMatrix` indexing in `Board::place` completes without
panicking; the write behaviour itself does not depend on it. -/
theorem place_spec (bd : Board) (row col : Nat) (block : Block) (block_type : CellType)
    (hWF : bd.WF)
    (hin : ∀ br bc, br < block.nrows → bc < block.ncols →
      block.cell_at_row_col br bc = true → row + br < bd.nrows ∧ col + bc < bd.ncols) :
    (∀ r c, r < bd.nrows → c < bd.ncols →
      (bd.place row col block block_type).at_row_col r c =
        if Board.coveredBy row col block r c then block_type else bd.at_row_col r c) ∧
    (bd.place row col block block_type).nrows = bd.nrows ∧
    (bd.place row col block block_type).ncols = bd.ncols ∧
    (((Board.mk 1 1 [[2]]).can_place 0 0 singleBlock 1 false).placement_ok = false ∧
      (Board.mk 1 1 [[2]]).place 0 0 singleBlock 1 = Board.mk 1 1 [[1]]) := by
  refine ⟨?_, ?_, ?_, by decide, by decide⟩
  · intro r c hr hc
    unfold Board.place Board.coveredBy
    exact outer_fold_read block block_type row col (List.range block.nrows) bd hWF r c hr hc
  · exact (outer_fold_preserve block block_type row col (List.range block.nrows) bd hWF).1
  · exact (outer_fold_preserve block block_type row col (List.range block.nrows) bd hWF).2.1

/-- C8 witness: placing the monomino on an empty 2×2 board writes the
player id at (0, 0) and leaves (1, 1) untouched. -/
theorem place_spec_witness :
    ((Board.new 2 2).place 0 0 singleBlock 1).at_row_col 0 0 =
      (if Board.coveredBy 0 0 singleBlock 0 0 then 1 else (Board.new 2 2).at_row_col 0 0) ∧
    ((Board.new 2 2).place 0 0 singleBlock 1).at_row_col 1 1 =
      (if Board.coveredBy 0 0 singleBlock 1 1 then 1 else (Board.new 2 2).at_row_col 1 1) :=
  ⟨(place_spec (Board.new 2 2) 0 0 singleBlock 1 (by decide)
      (by intro br bc h1 h2 _; simp only [singleBlock, Board.new] at h1 h2 ⊢; omega)).1 0 0
      (by decide) (by decide),
   (place_spec (Board.new 2 2) 0 0 singleBlock 1 (by decide)
      (by intro br bc h1 h2 _; simp only [singleBlock, Board.new] at h1 h2 ⊢; omega)).1 1 1
      (by decide) (by decide)⟩

/-- C7 witness: the rotation identity applied to the source's own test
fixture, the piece `"#  " / "###"`. -/
theorem rotate_90_fourth_iterate_id_witness :
    (Block.mk 2 3 [[true, false, false], [true, true, true]]).WF ∧
    (Block.mk 2 3
        [[true, false, false], [true, true, true]]).rotate_90.rotate_90.rotate_90.rotate_90 =
      Block.mk 2 3 [[true, false, false], [true, true, true]] :=
  ⟨by decide, rotate_90_fourth_iterate_id _ (by decide)⟩


/-- The first-move corner pass succeeds iff some marked cell of the
anchored block covers one of the four listed corner coordinates and that
corner is free on the pre-placement board. -/
lemma corner_filled_iff (bd : Board) (row col : Nat) (block : Block) :
    bd.cornerFilled row col block = true ↔
      ∃ br bc, br < block.nrows ∧ bc < block.ncols ∧
        block.cell_at_row_col br bc = true ∧
        (row + br, col + bc) ∈ [(0, 0), (0, bd.ncols - 1),
          (bd.nrows - 1, 0), (bd.nrows - 1, bd.ncols - 1)] ∧
        bd.free_at_row_col (row + br) (col + bc) = true := by
  unfold Board.cornerFilled
  rw [List.any_eq_true]
  constructor
  · rintro ⟨corner, hmem, hcond⟩
    obtain ⟨cr, cc⟩ := corner
    dsimp only at hcond
    rw [Bool.and_eq_true] at hcond
    obtain ⟨hfree, hinner⟩ := hcond
    by_cases hguard : (cr : Int) - (row : Int) ≥ 0 ∧ (cc : Int) - (col : Int) ≥ 0 ∧
        (cr : Int) - (row : Int) < (block.nrows : Int) ∧
        (cc : Int) - (col : Int) < (block.ncols : Int)
    · rw [if_pos hguard] at hinner
      obtain ⟨hg1, hg2, hg3, hg4⟩ := hguard
      refine ⟨cr - row, cc - col, by omega, by omega, ?_, ?_, ?_⟩
      · have e1 : ((cr : Int) - (row : Int)).toNat = cr - row := by omega
        have e2 : ((cc : Int) - (col : Int)).toNat = cc - col := by omega
        rwa [e1, e2] at hinner
      · have e1 : row + (cr - row) = cr := by omega
        have e2 : col + (cc - col) = cc := by omega
        rw [e1, e2]
        exact hmem
      · have e1 : row + (cr - row) = cr := by omega
        have e2 : col + (cc - col) = cc := by omega
        rw [e1, e2]
        exact hfree
    · rw [if_neg hguard] at hinner
      cases hinner
  · rintro ⟨br, bc, hbr, hbc, hcell, hmem, hfree⟩
    refine ⟨(row + br, col + bc), hmem, ?_⟩
    dsimp only
    rw [Bool.and_eq_true]
    refine ⟨hfree, ?_⟩
    rw [if_pos ⟨by omega, by omega, by omega, by omega⟩]
    have e1 : (((row + br : Nat) : Int) - (row : Int)).toNat = br := by omega
    have e2 : (((col + bc : Nat) : Int) - (col : Int)).toNat = bc := by omega
    rw [e1, e2]
    exact hcell



/-- Reading a replicated list. -/
lemma getD_replicate {α : Type} (n r : Nat) (x d : α) :
    (List.replicate n x).getD r d = if r < n then x else d := by
  by_cases h : r < n
  · rw [getD_in_range _ _ _ (by simpa using h), List.getElem_replicate, if_pos h]
  · rw [List.getD_eq_getElem?_getD, List.getElem?_eq_none (by simpa using Nat.le_of_not_lt h),
      Option.getD_none, if_neg h]

/-- Every raw cell read of a fresh board yields `FREE_CELL`. -/
lemma new_val (n m r c : Nat) :
    ((Board.new n m).data.getD r []).getD c FREE_CELL = FREE_CELL := by
  unfold Board.new
  dsimp only
  rw [getD_replicate]
  by_cases hr : r < n
  · rw [if_pos hr, getD_replicate]
    split <;> rfl
  · rw [if_neg hr, getD_nil]

/-- On a fresh board a coordinate is free exactly when it is in range. -/
lemma new_free (n m r c : Nat) :
    (Board.new n m).free_at_row_col r c = decide (r < n ∧ c < m) := by
  unfold Board.free_at_row_col
  by_cases h : r < (Board.new n m).nrows ∧ c < (Board.new n m).ncols
  · rw [if_pos h, new_val]
    have h' : r < n ∧ c < m := h
    simp [h']
  · rw [if_neg h]
    have h' : ¬(r < n ∧ c < m) := h
    simp [h']

/-- The monomino overlap pass on a fresh board fails exactly out of
bounds. -/
lemma single_overlap_new (n m row col : Nat) :
    (Board.new n m).overlapViolation row col singleBlock =
      !decide (row < n ∧ col < m) := by
  unfold Board.overlapViolation
  have hr1 : List.range singleBlock.nrows = [0] := rfl
  have hc1 : List.range singleBlock.ncols = [0] := rfl
  simp only [hr1, hc1, List.any_cons, List.any_nil, Bool.or_false]
  rw [new_free]
  have hcell : singleBlock.cell_at_row_col 0 0 = true := rfl
  simp [hcell]

/-- The monomino side-adjacency pass on a fresh board never fires for a
nonzero player identifier. -/
lemma single_sides_new (n m row col : Nat) (ty : CellType) (hty : ty ≠ FREE_CELL) :
    (Board.new n m).sidesViolation row col singleBlock ty = false := by
  unfold Board.sidesViolation
  have hr1 : List.range singleBlock.nrows = [0] := rfl
  have hc1 : List.range singleBlock.ncols = [0] := rfl
  have hval : ∀ a b : Int,
      (((Board.new n m).data.getD a.toNat []).getD b.toNat FREE_CELL == ty) = false := by
    intro a b
    rw [new_val]
    exact beq_eq_false_iff_ne.mpr (Ne.symm hty)
  simp only [hr1, hc1, List.any_cons, List.any_nil, Bool.or_false]
  have hcell : singleBlock.cell_at_row_col 0 0 = true := rfl
  have hval2 : ∀ a b : Nat,
      ((Board.new n m).data[a]?.getD [])[b]?.getD FREE_CELL = FREE_CELL := by
    intro a b
    rw [← List.getD_eq_getElem?_getD, ← List.getD_eq_getElem?_getD]
    exact new_val n m a b
  simp [hcell]
  refine ⟨?_, ?_, ?_, ?_⟩ <;> intro _ _ _ <;> rw [hval2] <;> exact Ne.symm hty



/-- C6: with the first-move flag set, the corner check reports no
violation iff some marked cell of the anchored piece covers one of the
board's four corner cells and that corner is FREE on the pre-placement
board; in particular, on an empty board a single-cell piece is accepted
exactly at the four corners (for a nonzero player identifier) and rejected
everywhere else. -/
theorem first_move_corner_rule :
    (∀ (bd : Board) (row col : Nat) (block : Block) (block_type : CellType),
      bd.cornerViolation row col block block_type true = false ↔
        ∃ br bc, br < block.nrows ∧ bc < block.ncols ∧
          block.cell_at_row_col br bc = true ∧
          (row + br, col + bc) ∈ [(0, 0), (0, bd.ncols - 1),
            (bd.nrows - 1, 0), (bd.nrows - 1, bd.ncols - 1)] ∧
          bd.free_at_row_col (row + br) (col + bc) = true) ∧
    (∀ n m row col (block_type : CellType), 1 ≤ n → 1 ≤ m → block_type ≠ FREE_CELL →
      (((Board.new n m).can_place row col singleBlock block_type true).placement_ok = true ↔
        (row, col) ∈ [(0, 0), (0, m - 1), (n - 1, 0), (n - 1, m - 1)])) := by
  constructor
  · intro bd row col block ty
    have hcv : bd.cornerViolation row col block ty true = !bd.cornerFilled row col block := rfl
    rw [hcv]
    rw [show ((!bd.cornerFilled row col block) = false ↔
      bd.cornerFilled row col block = true) from by simp]
    exact corner_filled_iff bd row col block
  · intro n m row col ty hn hm hty
    rw [can_place_ok_iff]
    rw [single_overlap_new, single_sides_new n m row col ty hty]
    have hcv : (Board.new n m).cornerViolation row col singleBlock ty true =
        !((Board.new n m).cornerFilled row col singleBlock) := rfl
    rw [hcv]
    constructor
    · rintro ⟨h1, -, h3⟩
      simp only [Bool.not_eq_false'] at h3
      obtain ⟨br, bc, hbr, hbc, hcell, hmem, hfree⟩ := (corner_filled_iff _ _ _ _).mp h3
      have hbr' : br < 1 := hbr
      have hbc' : bc < 1 := hbc
      have hbr0 : br = 0 := by omega
      have hbc0 : bc = 0 := by omega
      subst hbr0 hbc0
      simpa using hmem
    · intro hmem
      have hb : row < n ∧ col < m := by
        simp only [List.mem_cons, List.not_mem_nil, or_false, Prod.mk.injEq] at hmem
        rcases hmem with ⟨rfl, rfl⟩ | ⟨rfl, rfl⟩ | ⟨rfl, rfl⟩ | ⟨rfl, rfl⟩ <;> omega
      refine ⟨by simp [hb], rfl, ?_⟩
      simp only [Bool.not_eq_false']
      apply (corner_filled_iff _ _ _ _).mpr
      refine ⟨0, 0, Nat.one_pos, Nat.one_pos, rfl, by simpa using hmem, ?_⟩
      rw [new_free]
      simpa using hb



/-- C6 witness: the empty 5×5 board accepts the monomino at corner
(0, 0) on the first move. -/
theorem first_move_corner_rule_witness :
    ((Board.new 5 5).can_place 0 0 singleBlock 1 true).placement_ok = true ↔
      ((0 : Nat), (0 : Nat)) ∈
        [((0 : Nat), (0 : Nat)), (0, 5 - 1), (5 - 1, 0), (5 - 1, 5 - 1)] :=
  first_move_corner_rule.2 5 5 0 0 1 (by decide) (by decide) (by decide)

end Blockus
